import Mathlib

/-!
Verification development for the Eisla component placement engine
(src/python/placement.py).

The Python module is shallowly embedded here:
* machine floats are modelled as exact rationals (`ℚ`) for coordinates,
  temperatures and random draws, and as real numbers (`ℝ`) where the code
  computes square roots (`math.hypot`) or exponentials (Metropolis rule);
* the component catalog (`data/components.json`, loaded by `load_db`) is an
  explicit association list parameter, since `get_comp` falls back to the
  empty record for unknown ids;
* the ambient `random` module is modelled by explicit streams of draw values
  (`ℕ → ℚ × ℚ` for the jitter of `initial_placement`, and a stream of
  per-iteration `Decision` records for the annealing loop);
* `time.monotonic() - t0` observations are modelled by an explicit sequence
  `elapsed : ℕ → ℚ`, indexed by how many periodic checks have fired;
* Python dicts keyed by reference designators are association lists with
  insert-or-update-in-place semantics (`dictSet`), which is exactly the
  observable behaviour of insertion-ordered Python dicts.
-/

set_option allowUnsafeReducibility true
attribute [semireducible] Rat.add Rat.mul Rat.sub Rat.inv Rat.ofScientific
set_option maxRecDepth 8000

namespace Eisla

/-- Models Python `round(q, 2)` (rounding a coordinate to two decimals;
ties are modelled as rounding up). -/
def round2 (q : ℚ) : ℚ := ((q * 100 + 1/2).floor : ℚ) / 100

/-- Models Python `max(lo, min(hi, x))`, the clamping idiom of
`initial_placement` and the translate move. -/
def clamp (lo hi x : ℚ) : ℚ := max lo (min hi x)

/-- The character for a decimal digit, as produced by Python `str(int)`. -/
def digitChar (d : ℕ) : Char := Char.ofNat (48 + d)

/-- Little-endian decimal digits of `n`, with explicit fuel (first argument)
so that the definition is structural. -/
def natDigitsAux : ℕ → ℕ → List ℕ
  | 0, _ => []
  | _ + 1, 0 => []
  | fuel + 1, n + 1 => ((n + 1) % 10) :: natDigitsAux fuel ((n + 1) / 10)

/-- Little-endian decimal digits of `n` (empty for `0`). -/
def natDigits (n : ℕ) : List ℕ := natDigitsAux n n

/-- Models Python `str(n)` for a non-negative integer: the usual decimal
rendering, used by the f-string in `assign_refs`. -/
def natStr (n : ℕ) : String :=
  if n = 0 then "0" else String.mk (((natDigits n).reverse).map digitChar)

/-- One catalog record from `data/components.json`; every field is optional,
matching the dict-with-defaults access pattern of `placement.py`.
`ref_designator_pfx` models the JSON field `ref_designator_prefix`. -/
structure CompEntry where
  category : Option String := none
  subcategory : Option String := none
  ref_designator_pfx : Option String := none
  dimensions_mm : Option (ℚ × ℚ) := none
  courtyard_clearance_mm : Option ℚ := none
  placement_zone : Option String := none
  placement_priority : Option ℚ := none
deriving DecidableEq

/-- The component catalog: `load_db()`'s dict, as an association list. -/
abbrev Db := List (String × CompEntry)

/-- Models `get_comp(component_id)`: catalog lookup defaulting to the empty
record `{}` for unknown ids. -/
def getComp (db : Db) (cid : String) : CompEntry := (db.lookup cid).getD {}

/-- Python truthiness for an optional string: `None` and `""` are falsy, so
`comp.get(k) or fallback` skips both. -/
def truthy (o : Option String) : Option String :=
  match o with
  | some s => if s = "" then none else some s
  | none => none

/-- Models `FALLBACK_DIMS.get(category, FALLBACK_DIMS["default"])`. -/
def fallbackDims (cat : String) : ℚ × ℚ :=
  if cat = "mcu" then (10, 10)
  else if cat = "power" then (6, 4)
  else if cat = "sensor" then (5, 4)
  else if cat = "comms" then (16, 16)
  else if cat = "motor_driver" then (5, 5)
  else if cat = "display" then (30, 25)
  else if cat = "connector" then (8, 6)
  else if cat = "passive" then (1, 1/2)
  else (5, 5)

/-- Models `FALLBACK_ZONE.get(category, "any")`. -/
def fallbackZone (cat : String) : String :=
  if cat = "mcu" then "centre"
  else if cat = "power" then "power_column"
  else if cat = "sensor" then "centre_right"
  else if cat = "comms" then "edge_top"
  else if cat = "motor_driver" then "edge_bottom"
  else if cat = "display" then "edge_top"
  else if cat = "connector" then "edge_bottom"
  else if cat = "passive" then "any"
  else "any"

/-- Models `FALLBACK_PRIORITY.get(category, 9)`. -/
def fallbackPriority (cat : String) : ℚ :=
  if cat = "mcu" then 1
  else if cat = "comms" then 2
  else if cat = "connector" then 3
  else if cat = "power" then 4
  else if cat = "motor_driver" then 5
  else if cat = "display" then 6
  else if cat = "sensor" then 7
  else if cat = "passive" then 9
  else 9

/-- Models `PREFIX_FALLBACK.get(category, "U")` from `assign_refs`. -/
def pfxFallback (cat : String) : String :=
  if cat = "mcu" ∨ cat = "power" ∨ cat = "sensor" ∨ cat = "comms" ∨ cat = "motor_driver" then "U"
  else if cat = "display" then "LCD"
  else if cat = "connector" then "J"
  else if cat = "passive" then "?"
  else "U"

/-- Models `SUB_PREFIX.get(subcategory)` from `assign_refs`. -/
def subPfx (sub : String) : Option String :=
  if sub = "capacitor" then some "C"
  else if sub = "resistor" then some "R"
  else if sub = "diode" ∨ sub = "diode_flyback" ∨ sub = "tvs_esd" ∨ sub = "tvs_diode" then some "D"
  else if sub = "led" then some "LED"
  else if sub = "mosfet_n" ∨ sub = "mosfet_p" then some "Q"
  else if sub = "crystal" then some "X"
  else if sub = "inductor" then some "L"
  else if sub = "fuse" then some "F"
  else if sub = "test_point" then some "TP"
  else if sub = "fiducial" then some "FID"
  else none

/-- The reference-designator stem resolved by `assign_refs`:
catalog `ref_designator_prefix` (truthy), else subcategory table,
else category table, else `"U"`. -/
def resolvePfx (db : Db) (cid : String) : String :=
  let c := getComp db cid
  match truthy c.ref_designator_pfx with
  | some p => p
  | none =>
    match subPfx (c.subcategory.getD "") with
    | some p => p
    | none => pfxFallback (c.category.getD "")

/-- A resolved component instance as consumed by `assign_refs` (one entry of
`resolved_components`); only `component_id` is relevant to placement. -/
structure RC where
  component_id : String
deriving DecidableEq

/-- A component instance after `assign_refs` added its `ref` field. -/
structure RefedComp where
  component_id : String
  ref : String
deriving DecidableEq

/-- The loop body of `assign_refs`, threading the per-stem counter dict. -/
def assignRefsGo (db : Db) : List RC → (String → ℕ) → List RefedComp
  | [], _ => []
  | rc :: rest, counters =>
    let p := resolvePfx db rc.component_id
    let n := counters p + 1
    ⟨rc.component_id, p ++ natStr n⟩ ::
      assignRefsGo db rest (fun q => if q = p then n else counters q)

/-- Models `assign_refs(components)`. -/
def assignRefs (db : Db) (comps : List RC) : List RefedComp :=
  assignRefsGo db comps (fun _ => 0)

/-- A placement record `{x, y, rotation}` for one reference designator. -/
structure Pos where
  x : ℚ
  y : ℚ
  rot : ℕ
deriving DecidableEq

/-- A placement state: the `ref → {x, y, rotation}` dict, as an
insertion-ordered association list. -/
abbrev Placement := List (String × Pos)

/-- Dict read (`placement.get(ref)` restricted to present keys). -/
def dictGet : Placement → String → Option Pos
  | [], _ => none
  | (k, v) :: rest, r => if k = r then some v else dictGet rest r

/-- Dict read with the all-zero default, mirroring how the embedding
totalises Python's `candidate[ref]` (which the pipeline only ever evaluates
on present keys). -/
def dictGetD (l : Placement) (r : String) : Pos := (dictGet l r).getD ⟨0, 0, 0⟩

/-- Dict write `placement[ref] = pos`: update in place if the key exists
(keeping its position, as Python dicts do), else append. -/
def dictSet : Placement → String → Pos → Placement
  | [], k, v => [(k, v)]
  | (k', v') :: rest, k, v =>
    if k' = k then (k, v) :: rest else (k', v') :: dictSet rest k v

/-- Models `get_pos(ref, placement)`: coordinates of `ref`, defaulting to
`(0, 0)` when the key is absent. -/
def getPos (pl : Placement) (r : String) : ℚ × ℚ :=
  match dictGet pl r with
  | some p => (p.x, p.y)
  | none => (0, 0)

/-- Nominal footprint dimensions: explicit `dimensions_mm`, else the category
fallback table (ending in the 5 × 5 default). -/
def resolvedDims (db : Db) (cid : String) : ℚ × ℚ :=
  match (getComp db cid).dimensions_mm with
  | some d => d
  | none => fallbackDims ((getComp db cid).category.getD "")

/-- The placement zone of a component: truthy `placement_zone`, else the
category fallback table, else `"any"`. -/
def resolveZone (db : Db) (cid : String) : String :=
  match truthy (getComp db cid).placement_zone with
  | some z => z
  | none => fallbackZone ((getComp db cid).category.getD "")

/-- The placement priority: explicit `placement_priority`, else the category
fallback table, else 9. -/
def resolvePriority (db : Db) (cid : String) : ℚ :=
  ((getComp db cid).placement_priority).getD
    (fallbackPriority ((getComp db cid).category.getD ""))

/-- Models `zone_centre(zone, w, h, margin)`: the target centre for each
named zone; unknown names (and `"any"`) default to the board centre. -/
def zoneCentre (zone : String) (w h margin : ℚ) : ℚ × ℚ :=
  let iw := w - 2 * margin
  let ih := h - 2 * margin
  if zone = "edge_top" then (w / 2, margin + ih * (1/10))
  else if zone = "edge_bottom" then (w / 2, margin + ih * (9/10))
  else if zone = "edge_left" then (margin + iw * (1/10), h / 2)
  else if zone = "edge_right" then (margin + iw * (9/10), h / 2)
  else if zone = "centre" then (w / 2, h / 2)
  else if zone = "centre_right" then (margin + iw * (7/10), h / 2)
  else if zone = "power_column" then (margin + iw * (15/100), h / 2)
  else if zone = "any" then (w / 2, h / 2)
  else (w / 2, h / 2)

/-- Stable insertion of one element into a list already sorted by `key`,
placing it before the first strictly larger element. -/
def insertByKey (key : RefedComp → ℚ) (x : RefedComp) : List RefedComp → List RefedComp
  | [] => [x]
  | y :: ys => if key x ≤ key y then x :: y :: ys else y :: insertByKey key x ys

/-- Stable sort by `key`, modelling Python's stable `sorted`. -/
def sortByKey (key : RefedComp → ℚ) : List RefedComp → List RefedComp
  | [] => []
  | x :: xs => insertByKey key x (sortByKey key xs)

/-- The loop body of `initial_placement`: place each component at its zone
centre plus the staggered-grid offset and jitter, clamp, round, and record
the zone occupancy. `jit n` is the pair of `random.uniform(-1.0, 1.0)` draws
for the `n`-th component in sorted order. -/
def initialPlacementGo (db : Db) (w h : ℚ) (jit : ℕ → ℚ × ℚ) :
    List RefedComp → Placement → (String → ℕ) → ℕ → Placement
  | [], pl, _, _ => pl
  | rc :: rest, pl, zoneOffsets, idx =>
    let zone := resolveZone db rc.component_id
    let dims := resolvedDims db rc.component_id
    let margin : ℚ := 3
    let zc := zoneCentre zone w h margin
    let n := zoneOffsets zone
    let row := n / 4
    let col := n % 4
    let stepX := max (dims.1 + 2) 6
    let stepY := max (dims.2 + 2) 6
    let offX := ((col : ℚ) - 3/2) * stepX
    let offY := ((row : ℚ) - 1/2) * stepY
    let x0 := zc.1 + offX + (jit idx).1
    let y0 := zc.2 + offY + (jit idx).2
    let hw := dims.1 / 2
    let hh := dims.2 / 2
    let x1 := clamp (margin + hw) (w - margin - hw) x0
    let y1 := clamp (margin + hh) (h - margin - hh) y0
    initialPlacementGo db w h jit rest
      (dictSet pl rc.ref ⟨round2 x1, round2 y1, 0⟩)
      (fun z => if z = zone then n + 1 else zoneOffsets z)
      (idx + 1)

/-- Models `initial_placement(components, w, h)`: sort by resolved priority
(stably), then place each component in turn. -/
def initialPlacement (db : Db) (comps : List RefedComp) (w h : ℚ)
    (jit : ℕ → ℚ × ℚ) : Placement :=
  initialPlacementGo db w h jit
    (sortByKey (fun rc => resolvePriority db rc.component_id) comps)
    [] (fun _ => 0) 0

/-- Models `math.hypot(a, b)` on exact inputs. -/
noncomputable def hypot (a b : ℚ) : ℝ :=
  Real.sqrt (((a : ℝ)) ^ 2 + ((b : ℝ)) ^ 2)

/-- Models `get_dims(component_id)`: nominal dimensions inflated by the
courtyard clearance (default 0.25 mm) on all sides. -/
def inflatedDims (db : Db) (cid : String) : ℚ × ℚ :=
  let d := resolvedDims db cid
  let c := ((getComp db cid).courtyard_clearance_mm).getD (1/4)
  (d.1 + c * 2, d.2 + c * 2)

/-- Models `overlap_penalty(ref_a, comp_a, ref_b, comp_b, placement)`:
`overlap_x * overlap_y * 50` when both axis separations are strictly below
the half-extent sums of the inflated footprints, else 0. All-rational, hence
computable. -/
def pairOverlap (db : Db) (pl : Placement) (a b : RefedComp) : ℚ :=
  let pa := getPos pl a.ref
  let pb := getPos pl b.ref
  let da := inflatedDims db a.component_id
  let dbb := inflatedDims db b.component_id
  let dx := |pa.1 - pb.1|
  let dy := |pa.2 - pb.2|
  let mdx := (da.1 + dbb.1) / 2
  let mdy := (da.2 + dbb.2) / 2
  if dx < mdx ∧ dy < mdy then (mdx - dx) * (mdy - dy) * 50 else 0

/-- The overlap term of the score: `overlap_penalty` summed over all ordered
pairs `i < j`, exactly as the double loop in `score` does. -/
def overlapTerm (db : Db) (pl : Placement) : List RefedComp → ℚ
  | [] => 0
  | a :: rest => (rest.map (fun b => pairOverlap db pl a b)).sum + overlapTerm db pl rest

/-- Models `zone_penalty(ref, component_id, placement, w, h)`: zero for the
`"any"` zone, else distance to the zone centre times the priority weight. -/
noncomputable def zonePenalty (db : Db) (r cid : String) (pl : Placement) (w h : ℚ) : ℝ :=
  let zone := resolveZone db cid
  if zone = "any" then 0
  else
    let p := getPos pl r
    let zc := zoneCentre zone w h 3
    let pr := resolvePriority db cid
    let wt := max (1/10 : ℚ) ((10 - pr) * (3/10))
    hypot (p.1 - zc.1) (p.2 - zc.2) * (wt : ℝ)

/-- The `WEIGHTS` table of `wire_length_score`, with the 0.5 default. -/
def wireWeight (cat : String) : ℚ :=
  if cat = "mcu" then 0
  else if cat = "power" then 8/10
  else if cat = "sensor" then 1
  else if cat = "comms" then 12/10
  else if cat = "motor_driver" then 6/10
  else if cat = "display" then 5/10
  else if cat = "connector" then 3/10
  else if cat = "passive" then 1/10
  else 1/2

/-- The accumulation loop of `wire_length_score`: each non-MCU component
contributes its distance to the MCU centre times its category weight. -/
noncomputable def wireSum (db : Db) (pl : Placement) (r : String) (m : ℚ × ℚ) :
    List RefedComp → ℝ
  | [] => 0
  | rc :: rest =>
    (if rc.ref = r then 0
     else
       let cat := ((getComp db rc.component_id).category).getD "passive"
       let p := getPos pl rc.ref
       hypot (p.1 - m.1) (p.2 - m.2) * ((wireWeight cat : ℚ) : ℝ))
    + wireSum db pl r m rest

/-- Models `wire_length_score(components, placement, mcu_ref)`: zero when no
MCU is designated (falsy ref) or its key is absent from the placement. -/
noncomputable def wireLengthScore (db : Db) (comps : List RefedComp)
    (pl : Placement) (mcuRef : Option String) : ℝ :=
  match mcuRef with
  | none => 0
  | some r =>
    if r = "" then 0
    else
      match dictGet pl r with
      | none => 0
      | some _ => wireSum db pl r (getPos pl r) comps

/-- Models `score(components, placement, w, h, mcu_ref)`: wire length plus
zone penalties plus overlap penalties. -/
noncomputable def score (db : Db) (comps : List RefedComp) (pl : Placement)
    (w h : ℚ) (mcuRef : Option String) : ℝ :=
  wireLengthScore db comps pl mcuRef
    + (comps.map (fun rc => zonePenalty db rc.ref rc.component_id pl w h)).sum
    + ((overlapTerm db pl comps : ℚ) : ℝ)

/-- The random draws consumed by one annealing iteration: `moveU` is the
move-selection `random.random()`; `transIdx`/`rotIdx` model the
`random.choice(refs)` index; `gaussX`/`gaussY` are the standard Gaussian
draws scaled by sigma; `swapIdx1`/`swapIdx2` model `random.sample(refs, 2)`;
`acceptU` is the Metropolis `random.random()`. -/
structure Decision where
  moveU : ℚ
  transIdx : ℕ
  gaussX : ℚ
  gaussY : ℚ
  rotIdx : ℕ
  swapIdx1 : ℕ
  swapIdx2 : ℕ
  acceptU : ℚ

/-- The ambient-randomness and wall-clock environment of one optimizer run:
`dec n` is the draw record of iteration `n`, `elapsed k` the value of
`time.monotonic() - t0` observed at the `k`-th periodic check. -/
structure SAEnv where
  dec : ℕ → Decision
  elapsed : ℕ → ℚ

/-- The mutable state of the annealing loop. -/
structure SAState where
  current : Placement
  curS : ℝ
  best : Placement
  bestS : ℝ
  T : ℚ
  itr : ℕ

/-- Models `random.choice(refs)`: pick by index modulo the length. -/
def listAt (l : List String) (i : ℕ) : String := l.getD (i % l.length) ""

/-- Models `next(rc["component_id"] for rc in components if rc["ref"] == ref)`. -/
def findCid (comps : List RefedComp) (r : String) : String :=
  match comps.find? (fun rc => rc.ref == r) with
  | some rc => rc.component_id
  | none => ""

/-- One candidate mutation of the annealing loop: translate (`moveU < 0.5`),
rotate by 90 degrees (`moveU < 0.7`), else swap two distinct components;
`none` models the `continue` taken when fewer than two refs exist. -/
def proposeMove (db : Db) (comps : List RefedComp) (w h : ℚ) (d : Decision)
    (cur : Placement) (T : ℚ) : Option Placement :=
  let refs := comps.map (fun rc => rc.ref)
  let margin : ℚ := 3
  if d.moveU < 1/2 then
    let r := listAt refs d.transIdx
    let dims := resolvedDims db (findCid comps r)
    let hw := dims.1 / 2
    let hh := dims.2 / 2
    let sigma := max 3 (T * (15/100))
    let old := dictGetD cur r
    let nx := clamp (margin + hw) (w - margin - hw) (old.x + sigma * d.gaussX)
    let ny := clamp (margin + hh) (h - margin - hh) (old.y + sigma * d.gaussY)
    some (dictSet cur r ⟨round2 nx, round2 ny, old.rot⟩)
  else if d.moveU < 7/10 then
    let r := listAt refs d.rotIdx
    let old := dictGetD cur r
    some (dictSet cur r ⟨old.x, old.y, (old.rot + 90) % 360⟩)
  else if refs.length < 2 then none
  else
    let len := refs.length
    let i := d.swapIdx1 % len
    let j0 := d.swapIdx2 % (len - 1)
    let j := if i ≤ j0 then j0 + 1 else j0
    let r1 := refs.getD i ""
    let r2 := refs.getD j ""
    let v1 := dictGetD cur r1
    let v2 := dictGetD cur r2
    some (dictSet (dictSet cur r1 v2) r2 v1)

open Classical in
/-- One annealing iteration after the counter bump: propose, score, accept by
the Metropolis rule (`delta < 0` short-circuits the second draw), track the
best-seen state, and cool `T` by `alpha` (skipped, as in the source, by the
`continue` path). -/
noncomputable def saStep (db : Db) (comps : List RefedComp) (w h : ℚ)
    (mcuRef : Option String) (d : Decision) (st : SAState) : SAState :=
  match proposeMove db comps w h d st.current st.T with
  | none => st
  | some cand =>
    let newS := score db comps cand w h mcuRef
    let delta := newS - st.curS
    if delta < 0 ∨ ((d.acceptU : ℝ) < Real.exp (-delta / (st.T : ℝ))) then
      if newS < st.bestS then
        ⟨cand, newS, cand, newS, st.T * (997/1000), st.itr⟩
      else
        ⟨cand, newS, st.best, st.bestS, st.T * (997/1000), st.itr⟩
    else
      ⟨st.current, st.curS, st.best, st.bestS, st.T * (997/1000), st.itr⟩

/-- The annealing `while` loop: run while `T > 0.5` and `itr < 8000`, with
the cooperative wall-clock check every 200 iterations. The fuel argument is
8000 at the top-level call; since every entry increments `itr` once, fuel
exhaustion coincides exactly with the `itr < 8000` bound. -/
noncomputable def saLoop (db : Db) (comps : List RefedComp) (w h : ℚ)
    (mcuRef : Option String) (tc : ℚ) (env : SAEnv) : ℕ → SAState → SAState
  | 0, st => st
  | fuel + 1, st =>
    if (1/2 : ℚ) < st.T ∧ st.itr < 8000 then
      if st.itr % 200 = 0 ∧ tc < env.elapsed (st.itr / 200) then st
      else
        saLoop db comps w h mcuRef tc env fuel
          (saStep db comps w h mcuRef (env.dec st.itr) { st with itr := st.itr + 1 })
    else st

/-- The tuple returned by `simulated_annealing`:
`(best_placement, initial_score, final_score, iterations)`. -/
structure SAResult where
  best : Placement
  initS : ℝ
  finalS : ℝ
  iters : ℕ

/-- Models `simulated_annealing(components, placement, w, h, mcu_ref,
time_cap)`: trivial success for at most one component, else seed the state
with the scored placement and run the cooling loop. -/
noncomputable def simulatedAnnealing (db : Db) (comps : List RefedComp)
    (w h : ℚ) (mcuRef : Option String) (tc : ℚ) (env : SAEnv)
    (seed : Placement) : SAResult :=
  if comps.length ≤ 1 then ⟨seed, 0, 0, 0⟩
  else
    let s0 := score db comps seed w h mcuRef
    let fin := saLoop db comps w h mcuRef tc env 8000 ⟨seed, s0, seed, s0, 80, 0⟩
    ⟨fin.best, s0, fin.bestS, fin.itr⟩

/-! ### Helper lemmas about the annealing loop -/

/-! ### Derived definitions used by the claim statements -/

/-- Inverse of `digitChar` on decimal digits. -/
def charToDigit (c : Char) : ℕ := c.toNat - 48

/-- Value of a little-endian digit list. -/
def ofDigitsLE : List ℕ → ℕ
  | [] => 0
  | d :: ds => d + 10 * ofDigitsLE ds

/-- Parse a big-endian decimal character string back into a number. -/
def parseBE (cs : List Char) : ℕ := ofDigitsLE ((cs.reverse).map charToDigit)

/-- A reference-designator stem with no decimal-digit characters (each
built-in fallback stem of `assign_refs` is such). -/
def digitFree (s : String) : Prop :=
  ∀ c ∈ s.data, ¬(48 ≤ c.toNat ∧ c.toNat ≤ 57)

instance (s : String) : Decidable (digitFree s) := by
  unfold digitFree
  exact List.decidableBAll _ _

/-- The overlap contribution exactly as the specification words it: inflate
each footprint by its clearance on all sides (width plus twice the
clearance), compare the axis separations with the sums of half-extents, and
charge `overlap_width * overlap_height * 50` on strict double overlap. -/
def specOverlapContribution (db : Db) (pl : Placement) (a b : RefedComp) : ℚ :=
  let pa := getPos pl a.ref
  let pb := getPos pl b.ref
  let da := resolvedDims db a.component_id
  let dbd := resolvedDims db b.component_id
  let ca := ((getComp db a.component_id).courtyard_clearance_mm).getD (1/4)
  let cb := ((getComp db b.component_id).courtyard_clearance_mm).getD (1/4)
  let ha := (da.1 + 2 * ca) / 2
  let hb := (dbd.1 + 2 * cb) / 2
  let va := (da.2 + 2 * ca) / 2
  let vb := (dbd.2 + 2 * cb) / 2
  let sepx := |pa.1 - pb.1|
  let sepy := |pa.2 - pb.2|
  if sepx < ha + hb ∧ sepy < va + vb then (ha + hb - sepx) * (va + vb - sepy) * 50 else 0

/-- The wiring term exactly as the specification words it: the sum over all
non-MCU instances of the distance to the MCU centre times the category
weight, with default weight 0.5 for unlisted categories (a missing category
resolves to `"passive"`). -/
noncomputable def specWireTerm (db : Db) (comps : List RefedComp) (pl : Placement)
    (r : String) : ℝ :=
  ((comps.filter (fun rc => rc.ref ≠ r)).map (fun rc =>
    hypot ((getPos pl rc.ref).1 - (getPos pl r).1) ((getPos pl rc.ref).2 - (getPos pl r).2) *
      ((wireWeight (((getComp db rc.component_id).category).getD "passive") : ℚ) : ℝ))).sum

/-- Strict membership of a point in an axis-aligned rectangle given by its
centre and full dimensions (positive-area overlap uses open rectangles). -/
def inOpenRect (p c dims : ℚ × ℚ) : Prop :=
  c.1 - dims.1 / 2 < p.1 ∧ p.1 < c.1 + dims.1 / 2 ∧
    c.2 - dims.2 / 2 < p.2 ∧ p.2 < c.2 + dims.2 / 2

/-- Geometric intersection of two clearance-inflated footprints: some point
lies strictly inside both rectangles. -/
def rectsIntersect (db : Db) (pl : Placement) (a b : RefedComp) : Prop :=
  ∃ p : ℚ × ℚ,
    inOpenRect p (getPos pl a.ref) (inflatedDims db a.component_id) ∧
      inOpenRect p (getPos pl b.ref) (inflatedDims db b.component_id)

/-- The containment property exactly as the claim states it: every instance
found in the placement lies inside the margin-reduced board rectangle for
its own resolved width and height (margin 3, centre coordinates). -/
def containedInBoard (db : Db) (comps : List RefedComp) (pl : Placement)
    (w h : ℚ) : Prop :=
  ∀ rc ∈ comps, ∀ p : Pos, dictGet pl rc.ref = some p →
    3 + (resolvedDims db rc.component_id).1 / 2 ≤ p.x ∧
      p.x ≤ w - 3 - (resolvedDims db rc.component_id).1 / 2 ∧
      3 + (resolvedDims db rc.component_id).2 / 2 ≤ p.y ∧
      p.y ≤ h - 3 - (resolvedDims db rc.component_id).2 / 2

/-- Bounds for one placement record on a board where every component has
width `W` and height `H`. -/
abbrev okPos (W H w h : ℚ) (p : Pos) : Prop :=
  3 + W / 2 ≤ p.x ∧ p.x ≤ w - 3 - W / 2 ∧ 3 + H / 2 ≤ p.y ∧ p.y ≤ h - 3 - H / 2

def dbX : Db :=
  [("m1", { category := some "mcu", dimensions_mm := some (10, 10), placement_zone := some "centre" }),
   ("c1", { category := some "comms", dimensions_mm := some (10, 10), placement_zone := some "any" }),
   ("b1", { category := some "passive", dimensions_mm := some (1, 1/2), placement_zone := some "edge_top" })]

def compsX : List RefedComp := [⟨"m1", "U1"⟩, ⟨"c1", "U2"⟩, ⟨"b1", "?1"⟩]

def seedX : Placement := [("U1", ⟨32, 34, 0⟩), ("U2", ⟨32, 34, 0⟩), ("?1", ⟨41, 7, 0⟩)]

def swapX : Placement := [("U1", ⟨32, 34, 0⟩), ("U2", ⟨41, 7, 0⟩), ("?1", ⟨32, 34, 0⟩)]

def decX : Decision := ⟨4/5, 0, 0, 0, 0, 1, 1, 9/10⟩

def jitX : ℕ → ℚ × ℚ := fun n => if n = 2 then (0, -2/5) else (0, 0)

def envX : SAEnv := ⟨fun _ => decX, fun _ => 0⟩

/-- The best-seen score never increases across one iteration. -/
lemma saStep_bestS_le (db : Db) (comps : List RefedComp) (w h : ℚ)
    (mcuRef : Option String) (d : Decision) (st : SAState) :
    (saStep db comps w h mcuRef d st).bestS ≤ st.bestS := by
  unfold saStep
  split
  · exact le_rfl
  · dsimp only
    split
    · split
      · next _ hlt => exact le_of_lt hlt
      · exact le_rfl
    · exact le_rfl

/-- One iteration never changes the stored iteration counter. -/
lemma saStep_itr (db : Db) (comps : List RefedComp) (w h : ℚ)
    (mcuRef : Option String) (d : Decision) (st : SAState) :
    (saStep db comps w h mcuRef d st).itr = st.itr := by
  unfold saStep
  split
  · rfl
  · dsimp only
    split
    · split <;> rfl
    · rfl

/-- With at least two components the `continue` path is unreachable, so a
candidate is always proposed. -/
lemma proposeMove_isSome (db : Db) (comps : List RefedComp) (w h : ℚ)
    (d : Decision) (cur : Placement) (T : ℚ) (hc : 2 ≤ comps.length) :
    (proposeMove db comps w h d cur T).isSome := by
  simp only [proposeMove]
  split
  · simp
  · split
    · simp
    · rw [List.length_map, if_neg (by omega)]
      simp

/-- With at least two components, every iteration multiplies the temperature
by the cooling factor. -/
lemma saStep_T (db : Db) (comps : List RefedComp) (w h : ℚ)
    (mcuRef : Option String) (d : Decision) (st : SAState)
    (hc : 2 ≤ comps.length) :
    (saStep db comps w h mcuRef d st).T = st.T * (997/1000) := by
  have hs := proposeMove_isSome db comps w h d st.current st.T hc
  unfold saStep
  split
  · next heq => rw [heq] at hs; simp at hs
  · dsimp only
    split
    · split <;> rfl
    · rfl

/-- The best-seen score never increases across the whole loop. -/
lemma saLoop_bestS_le (db : Db) (comps : List RefedComp) (w h : ℚ)
    (mcuRef : Option String) (tc : ℚ) (env : SAEnv) :
    ∀ (fuel : ℕ) (st : SAState),
      (saLoop db comps w h mcuRef tc env fuel st).bestS ≤ st.bestS := by
  intro fuel
  induction fuel with
  | zero => intro st; exact le_rfl
  | succ n ih =>
    intro st
    unfold saLoop
    split
    · split
      · exact le_rfl
      · exact le_trans (ih _) (by
          rw [show ({ st with itr := st.itr + 1 } : SAState).bestS = st.bestS from rfl] at *
          exact saStep_bestS_le db comps w h mcuRef (env.dec st.itr) _)
    · exact le_rfl

/-- The cooling schedule leaves the temperature below the exit threshold
after 1690 iterations: `80 * 0.997 ^ 1690 ≤ 0.5`. -/
lemma cooling_key : (80 : ℚ) * (997/1000) ^ 1690 ≤ 1/2 := by
  have h : (160 : ℕ) * 997 ^ 1690 ≤ 1000 ^ 1690 := by decide
  have h' : (160 : ℚ) * 997 ^ 1690 ≤ 1000 ^ 1690 := by exact_mod_cast h
  rw [div_pow,
    show (80 : ℚ) * (997 ^ 1690 / 1000 ^ 1690) = (160 * 997 ^ 1690) / (2 * 1000 ^ 1690) from by
      ring,
    div_le_div_iff (by positivity) (by norm_num)]
  linarith [h']

/-- Loop invariant: starting from a state on the cooling schedule whose
counter is at most 1690, the loop never pushes the counter past 1690. -/
lemma saLoop_itr_le (db : Db) (comps : List RefedComp) (w h : ℚ)
    (mcuRef : Option String) (tc : ℚ) (env : SAEnv) (hc : 2 ≤ comps.length) :
    ∀ (fuel : ℕ) (st : SAState),
      st.T = 80 * (997/1000) ^ st.itr → st.itr ≤ 1690 →
      (saLoop db comps w h mcuRef tc env fuel st).itr ≤ 1690 := by
  intro fuel
  induction fuel with
  | zero => intro st _ hi; exact hi
  | succ n ih =>
    intro st hT hi
    unfold saLoop
    split
    · next hcond =>
      split
      · exact hi
      · have hstep := saStep_T db comps w h mcuRef (env.dec st.itr)
          { st with itr := st.itr + 1 } hc
        have hitr := saStep_itr db comps w h mcuRef (env.dec st.itr)
          { st with itr := st.itr + 1 }
        apply ih
        · rw [hstep, hitr]
          show st.T * (997/1000) = 80 * (997/1000) ^ (st.itr + 1)
          rw [hT, pow_succ]
          ring
        · rw [hitr]
          show st.itr + 1 ≤ 1690
          by_contra hgt
          have h1690 : st.itr = 1690 := by omega
          have hTle : st.T ≤ 1/2 := by
            rw [hT, h1690]
            exact cooling_key
          exact absurd hcond.1 (not_lt.mpr hTle)
    · exact hi

/-! ### C1, C6, C10: global properties of the annealing loop -/

/-- C1: for every run of the simulated-annealing optimizer on more than one
component, the score of the returned best-seen placement is at most the
score of the initial seed placement; the optimizer never returns a state
worse than the seed. -/
theorem sa_final_le_initial (db : Db) (comps : List RefedComp) (w h : ℚ)
    (mcuRef : Option String) (tc : ℚ) (env : SAEnv) (seed : Placement)
    (hc : 1 < comps.length) :
    (simulatedAnnealing db comps w h mcuRef tc env seed).finalS ≤
      (simulatedAnnealing db comps w h mcuRef tc env seed).initS := by
  unfold simulatedAnnealing
  rw [if_neg (by omega)]
  exact saLoop_bestS_le db comps w h mcuRef tc env 8000 _

/-- Witness for C1 at a concrete two-component run. -/
theorem sa_final_le_initial_witness :
    1 < ([⟨"a", "U1"⟩, ⟨"b", "U2"⟩] : List RefedComp).length ∧
      (simulatedAnnealing [] [⟨"a", "U1"⟩, ⟨"b", "U2"⟩] 100 80 none 10
          ⟨fun _ => ⟨0, 0, 0, 0, 0, 0, 0, 0⟩, fun _ => 0⟩ []).finalS ≤
        (simulatedAnnealing [] [⟨"a", "U1"⟩, ⟨"b", "U2"⟩] 100 80 none 10
          ⟨fun _ => ⟨0, 0, 0, 0, 0, 0, 0, 0⟩, fun _ => 0⟩ []).initS :=
  ⟨by decide, sa_final_le_initial [] [⟨"a", "U1"⟩, ⟨"b", "U2"⟩] 100 80 none 10
    ⟨fun _ => ⟨0, 0, 0, 0, 0, 0, 0, 0⟩, fun _ => 0⟩ [] (by decide)⟩

/-- C6: when the component count is 0 or 1, the optimizer takes the
trivial-success path: it returns the seed placement unchanged, reports
initial score 0 and final score 0, and executes zero iterations. -/
theorem sa_trivial_case (db : Db) (comps : List RefedComp) (w h : ℚ)
    (mcuRef : Option String) (tc : ℚ) (env : SAEnv) (seed : Placement)
    (hc : comps.length ≤ 1) :
    simulatedAnnealing db comps w h mcuRef tc env seed = ⟨seed, 0, 0, 0⟩ := by
  unfold simulatedAnnealing
  rw [if_pos hc]

/-- Witness for C6 at concrete zero- and one-component runs. -/
theorem sa_trivial_case_witness :
    ([] : List RefedComp).length ≤ 1 ∧
      ([⟨"a", "U1"⟩] : List RefedComp).length ≤ 1 ∧
      simulatedAnnealing [] [] 100 80 none 10
          ⟨fun _ => ⟨0, 0, 0, 0, 0, 0, 0, 0⟩, fun _ => 0⟩ [] = ⟨[], 0, 0, 0⟩ ∧
      simulatedAnnealing [] [⟨"a", "U1"⟩] 100 80 none 10
          ⟨fun _ => ⟨0, 0, 0, 0, 0, 0, 0, 0⟩, fun _ => 0⟩
          [("U1", ⟨50, 40, 0⟩)] = ⟨[("U1", ⟨50, 40, 0⟩)], 0, 0, 0⟩ :=
  ⟨by decide, by decide,
    sa_trivial_case [] [] 100 80 none 10
      ⟨fun _ => ⟨0, 0, 0, 0, 0, 0, 0, 0⟩, fun _ => 0⟩ [] (by decide),
    sa_trivial_case [] [⟨"a", "U1"⟩] 100 80 none 10
      ⟨fun _ => ⟨0, 0, 0, 0, 0, 0, 0, 0⟩, fun _ => 0⟩ [("U1", ⟨50, 40, 0⟩)] (by decide)⟩

/-- C10: the annealing loop always terminates with at most 1690 iterations
(the temperature starts at 80 and is cooled by 0.997 every iteration until
it reaches 0.5), so the advertised hard cap of 8000 iterations is never the
binding termination condition. -/
theorem sa_iterations_le_1690 (db : Db) (comps : List RefedComp) (w h : ℚ)
    (mcuRef : Option String) (tc : ℚ) (env : SAEnv) (seed : Placement) :
    (simulatedAnnealing db comps w h mcuRef tc env seed).iters ≤ 1690 ∧
      (simulatedAnnealing db comps w h mcuRef tc env seed).iters < 8000 := by
  have hmain : (simulatedAnnealing db comps w h mcuRef tc env seed).iters ≤ 1690 := by
    unfold simulatedAnnealing
    split
    · exact Nat.zero_le _
    · next hlen =>
      exact saLoop_itr_le db comps w h mcuRef tc env (by omega) 8000 _
        (by norm_num) (by norm_num)
  exact ⟨hmain, by omega⟩

/-! ### Decimal rendering: helper lemmas for reference-designator uniqueness -/

lemma natDigitsAux_ofDigits : ∀ (fuel n : ℕ), n ≤ fuel →
    ofDigitsLE (natDigitsAux fuel n) = n := by
  intro fuel
  induction fuel with
  | zero =>
    intro n hn
    interval_cases n
    rfl
  | succ f ih =>
    intro n hn
    match n with
    | 0 => rfl
    | m + 1 =>
      have hdiv : (m + 1) / 10 ≤ f := by
        have := Nat.div_lt_self (Nat.succ_pos m) (by norm_num : 1 < 10)
        omega
      simp only [natDigitsAux, ofDigitsLE, ih ((m + 1) / 10) hdiv]
      exact Nat.mod_add_div (m + 1) 10

lemma natDigitsAux_lt_ten : ∀ (fuel n : ℕ), ∀ d ∈ natDigitsAux fuel n, d < 10 := by
  intro fuel
  induction fuel with
  | zero => intro n d hd; simp [natDigitsAux] at hd
  | succ f ih =>
    intro n d hd
    match n with
    | 0 => simp [natDigitsAux] at hd
    | m + 1 =>
      simp only [natDigitsAux, List.mem_cons] at hd
      rcases hd with h | h
      · rw [h]; exact Nat.mod_lt _ (by norm_num)
      · exact ih _ d h

lemma digitChar_toNat (d : ℕ) (h : d < 10) : (digitChar d).toNat = 48 + d := by
  interval_cases d <;> rfl

lemma charToDigit_digitChar (d : ℕ) (h : d < 10) : charToDigit (digitChar d) = d := by
  rw [charToDigit, digitChar_toNat d h]
  omega

lemma parseBE_natStr (n : ℕ) : parseBE (natStr n).data = n := by
  by_cases h0 : n = 0
  · subst h0; decide
  · rw [natStr, if_neg h0]
    show parseBE ((natDigits n).reverse.map digitChar) = n
    rw [parseBE, ← List.map_reverse, List.reverse_reverse, List.map_map]
    have hmap : (natDigits n).map (charToDigit ∘ digitChar) = natDigits n := by
      have h := List.map_congr_left (l := natDigits n)
        (f := charToDigit ∘ digitChar) (g := id)
        (fun d hd => charToDigit_digitChar d (natDigitsAux_lt_ten n n d hd))
      rw [h, List.map_id]
    rw [hmap]
    exact natDigitsAux_ofDigits n n le_rfl

lemma natStr_inj {a b : ℕ} (h : natStr a = natStr b) : a = b := by
  have h' := congrArg (fun s => parseBE s.data) h
  simpa only [parseBE_natStr] using h'

lemma natStr_all_digits (n : ℕ) :
    ∀ c ∈ (natStr n).data, 48 ≤ c.toNat ∧ c.toNat ≤ 57 := by
  by_cases h0 : n = 0
  · subst h0; decide
  · rw [natStr, if_neg h0]
    intro c hc
    show 48 ≤ c.toNat ∧ c.toNat ≤ 57
    rcases List.mem_map.mp hc with ⟨d, hd, rfl⟩
    have hlt : d < 10 := natDigitsAux_lt_ten n n d (List.mem_reverse.mp hd)
    rw [digitChar_toNat d hlt]
    omega

/-- Decomposition of a rendered designator: if both stems are digit free,
equal designators force equal stems and equal counters. -/
lemma stem_counter_inj (p1 p2 : String) (n1 n2 : ℕ)
    (h1 : digitFree p1) (h2 : digitFree p2)
    (he : p1 ++ natStr n1 = p2 ++ natStr n2) : p1 = p2 ∧ n1 = n2 := by
  have hd : p1.data ++ (natStr n1).data = p2.data ++ (natStr n2).data := by
    rw [← String.data_append, ← String.data_append, he]
  have hlen1 : (natStr n1).data ≠ [] := by
    have := parseBE_natStr n1
    intro hemp
    by_cases h0 : n1 = 0
    · subst h0; rw [natStr] at hemp; simp at hemp
    · rw [natStr, if_neg h0] at hemp
      simp only [List.map_eq_nil_iff, List.reverse_eq_nil_iff] at hemp
      cases hn : n1 with
      | zero => exact h0 hn
      | succ m =>
        rw [hn] at hemp
        simp [natDigits, natDigitsAux] at hemp
  rcases List.append_eq_append_iff.mp hd with ⟨t, hp, hs⟩ | ⟨t, hp, hs⟩
  · rcases t with _ | ⟨c, t'⟩
    · rw [List.append_nil] at hp
      have hps : p1 = p2 := String.ext hp.symm
      have hns : natStr n1 = natStr n2 := String.ext (by rw [hs, List.nil_append])
      exact ⟨hps, natStr_inj hns⟩
    · exfalso
      have hcdig : 48 ≤ c.toNat ∧ c.toNat ≤ 57 := by
        apply natStr_all_digits n1
        rw [hs]
        exact List.mem_append.mpr (Or.inl (List.mem_cons_self c t'))
      have hcp : c ∈ p2.data := by
        rw [hp]
        exact List.mem_append.mpr (Or.inr (List.mem_cons_self c t'))
      exact h2 c hcp hcdig
  · rcases t with _ | ⟨c, t'⟩
    · rw [List.append_nil] at hp
      have hps : p1 = p2 := String.ext hp
      have hns : natStr n1 = natStr n2 := String.ext (by rw [hs, List.nil_append])
      exact ⟨hps, natStr_inj hns⟩
    · exfalso
      have hcdig : 48 ≤ c.toNat ∧ c.toNat ≤ 57 := by
        apply natStr_all_digits n2
        rw [hs]
        exact List.mem_append.mpr (Or.inl (List.mem_cons_self c t'))
      have hcp : c ∈ p1.data := by
        rw [hp]
        exact List.mem_append.mpr (Or.inr (List.mem_cons_self c t'))
      exact h1 c hcp hcdig

/-- Invariant of the `assign_refs` loop: with digit-free stems the emitted
designators are distinct, and every emitted designator decomposes as a
digit-free stem plus a counter strictly above that stem's starting count. -/
lemma assignRefsGo_spec (db : Db) : ∀ (comps : List RC) (counters : String → ℕ),
    (∀ rc ∈ comps, digitFree (resolvePfx db rc.component_id)) →
    ((assignRefsGo db comps counters).map (fun rc => rc.ref)).Nodup ∧
      ∀ r ∈ (assignRefsGo db comps counters).map (fun rc => rc.ref),
        ∃ p k, digitFree p ∧ counters p < k ∧ r = p ++ natStr k := by
  intro comps
  induction comps with
  | nil => intro counters _; exact ⟨List.nodup_nil, by simp [assignRefsGo]⟩
  | cons rc rest ih =>
    intro counters hdf
    have hdf0 : digitFree (resolvePfx db rc.component_id) :=
      hdf rc (List.mem_cons_self rc rest)
    have hdfr : ∀ x ∈ rest, digitFree (resolvePfx db x.component_id) :=
      fun x hx => hdf x (List.mem_cons_of_mem rc hx)
    obtain ⟨ihnd, ihdec⟩ := ih
      (fun q => if q = resolvePfx db rc.component_id
        then counters (resolvePfx db rc.component_id) + 1 else counters q) hdfr
    constructor
    · rw [assignRefsGo]
      simp only [List.map_cons]
      refine List.nodup_cons.mpr ⟨?_, ihnd⟩
      intro hmem
      obtain ⟨p, k, hpdf, hcnt, heq⟩ := ihdec _ hmem
      obtain ⟨hps, hks⟩ := stem_counter_inj _ _ _ _ hdf0 hpdf heq
      subst hps
      rw [if_pos rfl] at hcnt
      rw [← hks] at hcnt
      exact lt_irrefl _ hcnt
    · intro r hr
      rw [assignRefsGo] at hr
      simp only [List.map_cons, List.mem_cons] at hr
      rcases hr with hr | hr
      · exact ⟨resolvePfx db rc.component_id, counters (resolvePfx db rc.component_id) + 1,
          hdf0, Nat.lt_succ_self _, hr⟩
      · obtain ⟨p, k, hpdf, hcnt, heq⟩ := ihdec r hr
        refine ⟨p, k, hpdf, ?_, heq⟩
        by_cases hqp : p = resolvePfx db rc.component_id
        · rw [if_pos hqp] at hcnt
          rw [hqp]
          omega
        · rw [if_neg hqp] at hcnt
          exact hcnt

/-! ### C5: reference-designator uniqueness -/

/-- C5 (amended): the reference designators assigned by `assign_refs` are
pairwise distinct whenever every resolved designator stem is free of decimal
digits — which holds for all built-in subcategory/category fallback stems.
(With arbitrary digit-bearing catalog stems, distinctness can fail.) -/
theorem assign_refs_distinct_digit_free (db : Db) (comps : List RC)
    (h : ∀ rc ∈ comps, digitFree (resolvePfx db rc.component_id)) :
    ((assignRefs db comps).map (fun rc => rc.ref)).Pairwise (· ≠ ·) :=
  (assignRefsGo_spec db comps (fun _ => 0) h).1

/-- Witness for the amended C5 on a concrete catalog exercising explicit,
subcategory and category stems. -/
theorem assign_refs_distinct_digit_free_witness :
    (∀ rc ∈ ([⟨"a"⟩, ⟨"b"⟩, ⟨"b"⟩, ⟨"c"⟩, ⟨"d"⟩] : List RC),
        digitFree (resolvePfx
          [("a", { ref_designator_pfx := some "U" }),
           ("b", { subcategory := some "resistor" }),
           ("c", { category := some "connector" })] rc.component_id)) ∧
      ((assignRefs
          [("a", { ref_designator_pfx := some "U" }),
           ("b", { subcategory := some "resistor" }),
           ("c", { category := some "connector" })]
          [⟨"a"⟩, ⟨"b"⟩, ⟨"b"⟩, ⟨"c"⟩, ⟨"d"⟩]).map (fun rc => rc.ref)).Pairwise (· ≠ ·) :=
  ⟨by decide, assign_refs_distinct_digit_free _ _ (by decide)⟩

/-- C5 counterexample: with catalog-supplied stems `"U1"` and `"U"`, one
`"U1"`-stem component followed by eleven `"U"`-stem components makes the
designator `U11` collide (stem `U1` counter 1 versus stem `U` counter 11),
so the claim's designators are not pairwise distinct for arbitrary catalog
stems. -/
theorem assign_refs_collision_counterexample :
    ¬ ((assignRefs
        [("a", { ref_designator_pfx := some "U1" }),
         ("b", { ref_designator_pfx := some "U" })]
        (⟨"a"⟩ :: List.replicate 11 ⟨"b"⟩)).map
          (fun rc => rc.ref)).Pairwise (· ≠ ·) := by decide

/-! ### C9: randomness is ambient, not an explicit seeded generator -/

/-- C9 (evidence for the code bug): the builder's output depends on the
ambient `random.uniform` draws — two runs with the same catalog, component
list and board but different ambient draw streams produce different
placements, and `placement.py` exposes no seed parameter that could pin
those draws down. -/
theorem initial_placement_depends_on_ambient_randomness :
    initialPlacement [] [⟨"x1", "U1"⟩] 100 80 (fun _ => (0, 0)) ≠
      initialPlacement [] [⟨"x1", "U1"⟩] 100 80 (fun _ => (1/2, 1/2)) := by
  decide

/-! ### C4: the `any` zone versus unrecognized zone names -/

/-- C4 (amended): `"any"` and every unrecognized zone name resolve to the
board's geometric centre, and an instance whose resolved zone is `"any"`
contributes zero zone penalty; an unrecognized zone name, however, still
contributes distance-to-centre times the priority weight. -/
theorem zone_any_and_unrecognized_behavior :
    (∀ w h m : ℚ, zoneCentre "any" w h m = (w / 2, h / 2)) ∧
      (∀ (z : String) (w h m : ℚ),
        z ∉ (["edge_top", "edge_bottom", "edge_left", "edge_right", "centre",
              "centre_right", "power_column"] : List String) →
        zoneCentre z w h m = (w / 2, h / 2)) ∧
      (∀ (db : Db) (r cid : String) (pl : Placement) (w h : ℚ),
        resolveZone db cid = "any" → zonePenalty db r cid pl w h = 0) ∧
      ∀ (db : Db) (r cid : String) (pl : Placement) (w h : ℚ),
        resolveZone db cid ≠ "any" →
        zonePenalty db r cid pl w h =
          hypot ((getPos pl r).1 - (zoneCentre (resolveZone db cid) w h 3).1)
              ((getPos pl r).2 - (zoneCentre (resolveZone db cid) w h 3).2) *
            ((max (1/10 : ℚ) ((10 - resolvePriority db cid) * (3/10)) : ℚ) : ℝ) := by
  refine ⟨fun w h m => rfl, ?_, ?_, ?_⟩
  · intro z w h m hz
    simp only [List.mem_cons, List.not_mem_nil, or_false, not_or] at hz
    obtain ⟨h1, h2, h3, h4, h5, h6, h7⟩ := hz
    simp only [zoneCentre]
    rw [if_neg h1, if_neg h2, if_neg h3, if_neg h4, if_neg h5, if_neg h6, if_neg h7,
      ite_self]
  · intro db r cid pl w h hres
    simp only [zonePenalty, hres]
    simp
  · intro db r cid pl w h hres
    simp only [zonePenalty]
    rw [if_neg hres]

/-- Witness for the amended C4: concrete instantiations of all four parts
(the empty catalog resolves any id's zone to `"any"`; the one-entry catalog
resolves to the unrecognized name `"foo"`). -/
theorem zone_any_and_unrecognized_behavior_witness :
    zoneCentre "any" 100 80 3 = (100 / 2, 80 / 2) ∧
      zoneCentre "foo" 100 80 3 = (100 / 2, 80 / 2) ∧
      zonePenalty [] "R1" "x1" [] 100 80 = 0 ∧
      zonePenalty [("x1", { placement_zone := some "foo" })] "R1" "x1" [] 100 80 =
        hypot ((getPos ([] : Placement) "R1").1 - (zoneCentre "foo" 100 80 3).1)
            ((getPos ([] : Placement) "R1").2 - (zoneCentre "foo" 100 80 3).2) *
          ((max (1/10 : ℚ)
            ((10 - resolvePriority [("x1", { placement_zone := some "foo" })] "x1") *
              (3/10)) : ℚ) : ℝ) :=
  ⟨zone_any_and_unrecognized_behavior.1 100 80 3,
    zone_any_and_unrecognized_behavior.2.1 "foo" 100 80 3 (by decide),
    zone_any_and_unrecognized_behavior.2.2.1 [] "R1" "x1" [] 100 80 (by decide),
    zone_any_and_unrecognized_behavior.2.2.2
      [("x1", { placement_zone := some "foo" })] "R1" "x1" [] 100 80 (by decide)⟩

/-- C4 counterexample: a component whose catalog zone is the unrecognized
name `"foo"`, placed at (10, 10) on a 100 × 80 board with priority 1, has
zone centre resolving to the board centre (50, 40) but contributes zone
penalty 135 — not zero as the claim states. -/
theorem zone_penalty_unrecognized_counterexample :
    zoneCentre "foo" 100 80 3 = (50, 40) ∧
      zonePenalty [("x1", { placement_zone := some "foo", placement_priority := some 1 })]
          "R1" "x1" [("R1", ⟨10, 10, 0⟩)] 100 80 = 135 ∧
      (135 : ℝ) ≠ 0 := by
  refine ⟨by decide, ?_, by norm_num⟩
  have hz : resolveZone
      [("x1", { placement_zone := some "foo", placement_priority := some 1 })] "x1" =
      "foo" := by decide
  have hp : getPos [("R1", (⟨10, 10, 0⟩ : Pos))] "R1" = (10, 10) := by decide
  have hpr : resolvePriority
      [("x1", { placement_zone := some "foo", placement_priority := some 1 })] "x1" = 1 := by
    decide
  simp only [zonePenalty, hz, hp, hpr]
  rw [if_neg (by decide : ¬("foo" = "any"))]
  rw [show zoneCentre "foo" 100 80 3 = (50, 40) from by decide]
  rw [show max (1/10 : ℚ) ((10 - 1) * (3/10)) = 27/10 from by decide]
  show hypot ((10:ℚ) - 50) ((10:ℚ) - 40) * ((27/10 : ℚ) : ℝ) = 135
  rw [show (10:ℚ) - 50 = -40 from by norm_num, show (10:ℚ) - 40 = -30 from by norm_num,
    hypot]
  rw [show (((-40:ℚ):ℝ)) ^ 2 + (((-30:ℚ):ℝ)) ^ 2 = 50 ^ 2 from by norm_num]
  rw [Real.sqrt_sq (by norm_num : (0:ℝ) ≤ 50)]
  norm_num

/-! ### C7: the overlap contribution formula -/

/-- C7: the per-pair overlap contribution of the score equals the
specification's formula — clearance-inflated dimensions
(`width + 2 * clearance`), strict comparison of both axis separations
against the half-extent sums, and `overlap_width * overlap_height * 50`. -/
theorem overlap_contribution_matches_spec (db : Db) (pl : Placement) (a b : RefedComp) :
    pairOverlap db pl a b = specOverlapContribution db pl a b := by
  unfold pairOverlap specOverlapContribution inflatedDims
  dsimp only
  rw [show ∀ x cx y cy : ℚ, (x + cx * 2 + (y + cy * 2)) / 2 = (x + 2 * cx) / 2 + (y + 2 * cy) / 2
      from fun x cx y cy => by ring,
    show ∀ x cx y cy : ℚ, (x + cx * 2 + (y + cy * 2)) / 2 = (x + 2 * cx) / 2 + (y + 2 * cy) / 2
      from fun x cx y cy => by ring]

/-! ### C8: the wiring term -/

lemma wireSum_eq_filtered (db : Db) (pl : Placement) (r : String) (m : ℚ × ℚ) :
    ∀ comps : List RefedComp,
      wireSum db pl r m comps =
        ((comps.filter (fun rc => rc.ref ≠ r)).map (fun rc =>
          hypot ((getPos pl rc.ref).1 - m.1) ((getPos pl rc.ref).2 - m.2) *
            ((wireWeight (((getComp db rc.component_id).category).getD "passive") : ℚ) : ℝ))).sum := by
  intro comps
  induction comps with
  | nil => simp [wireSum]
  | cons rc rest ih =>
    rw [wireSum]
    by_cases hrc : rc.ref = r
    · rw [if_pos hrc, ih]
      simp [List.filter_cons, hrc]
    · rw [if_neg hrc, ih]
      simp [List.filter_cons, hrc]

/-- C8: the wiring term is zero whenever no MCU is designated, and with a
designated MCU present in the placement it equals the specification's sum
over non-MCU instances of distance times category weight. -/
theorem wire_term_matches_spec :
    (∀ (db : Db) (comps : List RefedComp) (pl : Placement),
        wireLengthScore db comps pl none = 0) ∧
      ∀ (db : Db) (comps : List RefedComp) (pl : Placement) (r : String),
        r ≠ "" → (dictGet pl r).isSome →
        wireLengthScore db comps pl (some r) = specWireTerm db comps pl r := by
  constructor
  · intro db comps pl; rfl
  · intro db comps pl r hne hsome
    obtain ⟨p, hp⟩ := Option.isSome_iff_exists.mp hsome
    simp only [wireLengthScore]
    rw [if_neg hne, hp]
    exact wireSum_eq_filtered db pl r (getPos pl r) comps

/-- Witness for C8 at a concrete two-component placement with the MCU
designated as `U1`. -/
theorem wire_term_matches_spec_witness :
    ("U1" : String) ≠ "" ∧
      (dictGet [("U1", ⟨1, 2, 0⟩), ("U2", ⟨3, 4, 0⟩)] "U1").isSome ∧
      wireLengthScore [] [⟨"a", "U1"⟩, ⟨"b", "U2"⟩]
          [("U1", ⟨1, 2, 0⟩), ("U2", ⟨3, 4, 0⟩)] (some "U1") =
        specWireTerm [] [⟨"a", "U1"⟩, ⟨"b", "U2"⟩]
          [("U1", ⟨1, 2, 0⟩), ("U2", ⟨3, 4, 0⟩)] "U1" :=
  ⟨by decide, by decide,
    wire_term_matches_spec.2 [] [⟨"a", "U1"⟩, ⟨"b", "U2"⟩]
      [("U1", ⟨1, 2, 0⟩), ("U2", ⟨3, 4, 0⟩)] "U1" (by decide) (by decide)⟩

/-! ### C3: the overlap term is zero exactly when no courtyards intersect -/

lemma segs_overlap_iff (a ra b rb : ℚ) (ha : 0 < ra) (hb : 0 < rb) :
    (∃ z : ℚ, (a - ra < z ∧ z < a + ra) ∧ (b - rb < z ∧ z < b + rb)) ↔
      |a - b| < ra + rb := by
  constructor
  · rintro ⟨z, ⟨h1, h2⟩, h3, h4⟩
    rw [abs_lt]
    constructor <;> linarith
  · intro h
    rw [abs_lt] at h
    have l1 := le_max_left (a - ra) (b - rb)
    have l2 := le_max_right (a - ra) (b - rb)
    have l3 := min_le_left (a + ra) (b + rb)
    have l4 := min_le_right (a + ra) (b + rb)
    have hmm : max (a - ra) (b - rb) < min (a + ra) (b + rb) := by
      rcases max_cases (a - ra) (b - rb) with ⟨he, _⟩ | ⟨he, _⟩ <;>
        rcases min_cases (a + ra) (b + rb) with ⟨he2, _⟩ | ⟨he2, _⟩ <;>
        rw [he, he2] <;> linarith
    exact ⟨(max (a - ra) (b - rb) + min (a + ra) (b + rb)) / 2,
      ⟨by linarith, by linarith⟩, by linarith, by linarith⟩

/-- The per-pair penalty vanishes exactly when the two inflated footprints
are geometrically disjoint (assuming positive inflated dimensions). -/
lemma pairOverlap_eq_zero_iff (db : Db) (pl : Placement) (a b : RefedComp)
    (ha1 : 0 < (inflatedDims db a.component_id).1)
    (ha2 : 0 < (inflatedDims db a.component_id).2)
    (hb1 : 0 < (inflatedDims db b.component_id).1)
    (hb2 : 0 < (inflatedDims db b.component_id).2) :
    pairOverlap db pl a b = 0 ↔ ¬ rectsIntersect db pl a b := by
  have hiff : rectsIntersect db pl a b ↔
      (|(getPos pl a.ref).1 - (getPos pl b.ref).1| <
          (inflatedDims db a.component_id).1 / 2 + (inflatedDims db b.component_id).1 / 2 ∧
        |(getPos pl a.ref).2 - (getPos pl b.ref).2| <
          (inflatedDims db a.component_id).2 / 2 + (inflatedDims db b.component_id).2 / 2) := by
    constructor
    · rintro ⟨p, hA, hB⟩
      obtain ⟨a1, a2, a3, a4⟩ := hA
      obtain ⟨b1, b2, b3, b4⟩ := hB
      exact ⟨(segs_overlap_iff _ _ _ _ (half_pos ha1) (half_pos hb1)).mp
          ⟨p.1, ⟨a1, a2⟩, b1, b2⟩,
        (segs_overlap_iff _ _ _ _ (half_pos ha2) (half_pos hb2)).mp
          ⟨p.2, ⟨a3, a4⟩, b3, b4⟩⟩
    · rintro ⟨hx, hy⟩
      obtain ⟨z1, hz1⟩ := (segs_overlap_iff _ _ _ _ (half_pos ha1) (half_pos hb1)).mpr hx
      obtain ⟨z2, hz2⟩ := (segs_overlap_iff _ _ _ _ (half_pos ha2) (half_pos hb2)).mpr hy
      exact ⟨(z1, z2), ⟨hz1.1.1, hz1.1.2, hz2.1.1, hz2.1.2⟩,
        hz1.2.1, hz1.2.2, hz2.2.1, hz2.2.2⟩
  rw [hiff]
  unfold pairOverlap
  dsimp only
  split
  · next hcond =>
    constructor
    · intro h0
      exfalso
      have hpos := mul_pos (mul_pos (sub_pos.mpr hcond.1) (sub_pos.mpr hcond.2))
        (by norm_num : (0:ℚ) < 50)
      rw [h0] at hpos
      exact lt_irrefl 0 hpos
    · intro hni
      exact absurd ⟨by linarith [hcond.1], by linarith [hcond.2]⟩ hni
  · next hcond =>
    constructor
    · intro _ hint
      exact hcond ⟨by linarith [hint.1], by linarith [hint.2]⟩
    · intro _
      rfl

lemma pairOverlap_nonneg (db : Db) (pl : Placement) (a b : RefedComp) :
    0 ≤ pairOverlap db pl a b := by
  unfold pairOverlap
  dsimp only
  split
  · next hc =>
    exact le_of_lt (mul_pos (mul_pos (sub_pos.mpr hc.1) (sub_pos.mpr hc.2))
      (by norm_num : (0:ℚ) < 50))
  · exact le_rfl

lemma list_sum_nonneg_q {l : List ℚ} (h : ∀ x ∈ l, 0 ≤ x) : 0 ≤ l.sum := by
  induction l with
  | nil => simp
  | cons a t ih =>
    rw [List.sum_cons]
    have := h a (List.mem_cons_self a t)
    have := ih (fun x hx => h x (List.mem_cons_of_mem a hx))
    linarith

lemma list_sum_eq_zero_iff_q {l : List ℚ} (h : ∀ x ∈ l, 0 ≤ x) :
    l.sum = 0 ↔ ∀ x ∈ l, x = 0 := by
  induction l with
  | nil => simp
  | cons a t ih =>
    rw [List.sum_cons]
    have ha := h a (List.mem_cons_self a t)
    have ht : ∀ x ∈ t, 0 ≤ x := fun x hx => h x (List.mem_cons_of_mem a hx)
    have hts := list_sum_nonneg_q ht
    constructor
    · intro h0
      have ha0 : a = 0 := by linarith [(ih ht).mpr, hts]
      have ht0 : t.sum = 0 := by linarith
      intro x hx
      rcases List.mem_cons.mp hx with rfl | hx
      · exact ha0
      · exact ((ih ht).mp ht0) x hx
    · intro hall
      rw [hall a (List.mem_cons_self a t),
        (ih ht).mpr (fun x hx => hall x (List.mem_cons_of_mem a hx))]
      norm_num

lemma overlapTerm_nonneg (db : Db) (pl : Placement) :
    ∀ comps : List RefedComp, 0 ≤ overlapTerm db pl comps := by
  intro comps
  induction comps with
  | nil => simp [overlapTerm]
  | cons a rest ih =>
    rw [overlapTerm]
    have h1 : 0 ≤ (rest.map (fun b => pairOverlap db pl a b)).sum := by
      apply list_sum_nonneg_q
      intro x hx
      obtain ⟨b, _, rfl⟩ := List.mem_map.mp hx
      exact pairOverlap_nonneg db pl a b
    linarith

/-- C3: the reported overlap term is zero iff no two clearance-inflated
footprints geometrically intersect — i.e. iff for every unordered pair the
open inflated rectangles are disjoint (assuming every inflated footprint has
positive dimensions). -/
theorem overlap_term_zero_iff_disjoint (db : Db) (pl : Placement)
    (comps : List RefedComp)
    (hpos : ∀ rc ∈ comps, 0 < (inflatedDims db rc.component_id).1 ∧
      0 < (inflatedDims db rc.component_id).2) :
    overlapTerm db pl comps = 0 ↔
      comps.Pairwise (fun a b => ¬ rectsIntersect db pl a b) := by
  induction comps with
  | nil => simp [overlapTerm]
  | cons a rest ih =>
    have hpa := hpos a (List.mem_cons_self a rest)
    have hrest : ∀ rc ∈ rest, 0 < (inflatedDims db rc.component_id).1 ∧
        0 < (inflatedDims db rc.component_id).2 :=
      fun rc hc => hpos rc (List.mem_cons_of_mem a hc)
    have hnn1 : ∀ x ∈ rest.map (fun b => pairOverlap db pl a b), 0 ≤ x := by
      intro x hx
      obtain ⟨b, _, rfl⟩ := List.mem_map.mp hx
      exact pairOverlap_nonneg db pl a b
    have hs1 := list_sum_nonneg_q hnn1
    have hs2 := overlapTerm_nonneg db pl rest
    rw [overlapTerm, List.pairwise_cons]
    constructor
    · intro h0
      have hz1 : (rest.map (fun b => pairOverlap db pl a b)).sum = 0 := by linarith
      have hz2 : overlapTerm db pl rest = 0 := by linarith
      refine ⟨?_, (ih hrest).mp hz2⟩
      intro b hb
      have hpb := hrest b hb
      have hpz : pairOverlap db pl a b = 0 :=
        (list_sum_eq_zero_iff_q hnn1).mp hz1 _ (List.mem_map_of_mem _ hb)
      exact (pairOverlap_eq_zero_iff db pl a b hpa.1 hpa.2 hpb.1 hpb.2).mp hpz
    · rintro ⟨hhead, htail⟩
      have hz2 : overlapTerm db pl rest = 0 := (ih hrest).mpr htail
      have hz1 : (rest.map (fun b => pairOverlap db pl a b)).sum = 0 := by
        rw [list_sum_eq_zero_iff_q hnn1]
        intro x hx
        obtain ⟨b, hb, rfl⟩ := List.mem_map.mp hx
        have hpb := hrest b hb
        exact (pairOverlap_eq_zero_iff db pl a b hpa.1 hpa.2 hpb.1 hpb.2).mpr (hhead b hb)
      rw [hz1, hz2]
      norm_num

/-- Witness for C3 on a concrete two-component list with positive inflated
dimensions (empty catalog: 5 × 5 fallback plus 0.25 clearance). -/
theorem overlap_term_zero_iff_disjoint_witness :
    (∀ rc ∈ ([⟨"a", "U1"⟩, ⟨"b", "U2"⟩] : List RefedComp),
        0 < (inflatedDims [] rc.component_id).1 ∧
          0 < (inflatedDims [] rc.component_id).2) ∧
      (overlapTerm [] [("U1", ⟨20, 20, 0⟩), ("U2", ⟨60, 20, 0⟩)]
          [⟨"a", "U1"⟩, ⟨"b", "U2"⟩] = 0 ↔
        ([⟨"a", "U1"⟩, ⟨"b", "U2"⟩] : List RefedComp).Pairwise
          (fun a b => ¬ rectsIntersect [] [("U1", ⟨20, 20, 0⟩), ("U2", ⟨60, 20, 0⟩)] a b)) :=
  ⟨by decide, overlap_term_zero_iff_disjoint [] [("U1", ⟨20, 20, 0⟩), ("U2", ⟨60, 20, 0⟩)]
    [⟨"a", "U1"⟩, ⟨"b", "U2"⟩] (by decide)⟩

/-! ### C2: containment of the final placement -/

lemma dictGet_mem : ∀ (l : Placement) (r : String) (p : Pos),
    dictGet l r = some p → (r, p) ∈ l := by
  intro l
  induction l with
  | nil => intro r p hp; simp [dictGet] at hp
  | cons kv rest ih =>
    intro r p hp
    rw [dictGet] at hp
    split at hp
    · next hk =>
      obtain ⟨k, v⟩ := kv
      simp only at hk hp
      rw [Option.some.injEq] at hp
      subst hk
      subst hp
      exact List.mem_cons_self _ _
    · exact List.mem_cons_of_mem _ (ih r p hp)

lemma dictGet_dictSet : ∀ (l : Placement) (k : String) (v : Pos) (r : String),
    dictGet (dictSet l k v) r = if k = r then some v else dictGet l r := by
  intro l
  induction l with
  | nil => intro k v r; rfl
  | cons kv rest ih =>
    intro k v r
    obtain ⟨k', v'⟩ := kv
    rw [dictSet]
    by_cases hk : k' = k
    · subst hk
      rw [if_pos rfl, dictGet, dictGet]
      by_cases hr : k' = r
      · rw [if_pos hr, if_pos hr]
      · rw [if_neg hr, if_neg hr, if_neg hr]
    · rw [if_neg hk, dictGet, ih]
      by_cases hr : k' = r
      · subst hr
        rw [if_pos rfl, if_neg (fun hh => hk hh.symm), dictGet, if_pos rfl]
      · rw [if_neg hr, dictGet, if_neg hr]

lemma mem_dictSet : ∀ (l : Placement) (k : String) (v : Pos) (kv : String × Pos),
    kv ∈ dictSet l k v → kv = (k, v) ∨ kv ∈ l := by
  intro l
  induction l with
  | nil =>
    intro k v kv hkv
    rw [dictSet] at hkv
    rcases List.mem_cons.mp hkv with h | h
    · exact Or.inl h
    · simp at h
  | cons kv0 rest ih =>
    intro k v kv hkv
    obtain ⟨k', v'⟩ := kv0
    rw [dictSet] at hkv
    split at hkv
    · rcases List.mem_cons.mp hkv with h | h
      · exact Or.inl h
      · exact Or.inr (List.mem_cons_of_mem _ h)
    · rcases List.mem_cons.mp hkv with h | h
      · exact Or.inr (h ▸ List.mem_cons_self _ _)
      · rcases ih k v kv h with h' | h'
        · exact Or.inl h'
        · exact Or.inr (List.mem_cons_of_mem _ h')

lemma le_round2 (lo x : ℚ) (hden : (100 * lo).den = 1) (h : lo ≤ x) :
    lo ≤ round2 x := by
  have hz : ((100 * lo).num : ℚ) = 100 * lo := Rat.coe_int_num_of_den_eq_one hden
  rw [round2, le_div_iff (by norm_num : (0:ℚ) < 100)]
  have h1 : (100 * lo).num ≤ (x * 100 + 1/2).floor := by
    rw [Rat.le_floor, hz]
    linarith
  calc lo * 100 = ((100 * lo).num : ℚ) := by rw [hz]; ring
    _ ≤ ((x * 100 + 1/2).floor : ℚ) := by exact_mod_cast h1

lemma round2_le (x hi : ℚ) (hden : (100 * hi).den = 1) (h : x ≤ hi) :
    round2 x ≤ hi := by
  have hz : ((100 * hi).num : ℚ) = 100 * hi := Rat.coe_int_num_of_den_eq_one hden
  rw [round2, div_le_iff (by norm_num : (0:ℚ) < 100)]
  have h1 : (x * 100 + 1/2).floor ≤ (100 * hi).num := by
    by_contra hlt
    rw [not_le] at hlt
    have h2 : (100 * hi).num + 1 ≤ (x * 100 + 1/2).floor := hlt
    rw [Rat.le_floor] at h2
    push_cast [hz] at h2
    linarith
  calc ((x * 100 + 1/2).floor : ℚ) ≤ ((100 * hi).num : ℚ) := by exact_mod_cast h1
    _ = hi * 100 := by rw [hz]; ring

lemma clamp_bounds (lo hi x : ℚ) (h : lo ≤ hi) :
    lo ≤ clamp lo hi x ∧ clamp lo hi x ≤ hi := by
  unfold clamp
  exact ⟨le_max_left _ _, max_le h (min_le_left _ _)⟩

lemma listAt_mem (l : List String) (i : ℕ) (hl : l ≠ []) : listAt l i ∈ l := by
  rw [listAt]
  have hlen : 0 < l.length := List.length_pos.mpr hl
  have hmod : i % l.length < l.length := Nat.mod_lt _ hlen
  rw [List.getD_eq_getElem?_getD, List.getElem?_eq_getElem hmod]
  exact List.getElem_mem _

lemma getD_mem_of_lt (l : List String) (i : ℕ) (hi : i < l.length) :
    l.getD i "" ∈ l := by
  rw [List.getD_eq_getElem?_getD, List.getElem?_eq_getElem hi]
  exact List.getElem_mem _

lemma findCid_dims (db : Db) (comps : List RefedComp) (r : String) (W H : ℚ)
    (hdims : ∀ rc ∈ comps, resolvedDims db rc.component_id = (W, H))
    (hr : r ∈ comps.map (fun rc => rc.ref)) :
    resolvedDims db (findCid comps r) = (W, H) := by
  obtain ⟨rc, hrc, hrcr⟩ := List.mem_map.mp hr
  rw [findCid]
  split
  · next rc' hfind =>
    exact hdims rc' (List.mem_of_find?_eq_some hfind)
  · next hnone =>
    exfalso
    have hall := List.find?_eq_none.mp hnone
    exact absurd (by simp [hrcr]) (hall rc hrc)

/-- A proposed candidate keeps every record inside the common bounds and
keeps every component's key present, provided all components share the
resolved dimensions `W × H`, the bounds are representable at two decimals,
and the board fits the footprint. -/
lemma propose_preserves (db : Db) (comps : List RefedComp) (w h : ℚ)
    (d : Decision) (cur : Placement) (T : ℚ) (cand : Placement) (W H : ℚ)
    (hc2 : 2 ≤ comps.length)
    (hdims : ∀ rc ∈ comps, resolvedDims db rc.component_id = (W, H))
    (hgx1 : (100 * (3 + W / 2)).den = 1) (hgx2 : (100 * (w - 3 - W / 2)).den = 1)
    (hgy1 : (100 * (3 + H / 2)).den = 1) (hgy2 : (100 * (h - 3 - H / 2)).den = 1)
    (hfx : 3 + W / 2 ≤ w - 3 - W / 2) (hfy : 3 + H / 2 ≤ h - 3 - H / 2)
    (hok : ∀ kv ∈ cur, okPos W H w h kv.2)
    (hcov : ∀ rc ∈ comps, (dictGet cur rc.ref).isSome)
    (hcand : proposeMove db comps w h d cur T = some cand) :
    (∀ kv ∈ cand, okPos W H w h kv.2) ∧
      (∀ rc ∈ comps, (dictGet cand rc.ref).isSome) := by
  have hrefs_ne : comps.map (fun rc => rc.ref) ≠ [] := by
    intro hemp
    have hl := congrArg List.length hemp
    rw [List.length_map, List.length_nil] at hl
    omega
  have hcov' : ∀ r ∈ comps.map (fun rc => rc.ref), (dictGet cur r).isSome := by
    intro r hr
    obtain ⟨rc, hrc, hrr⟩ := List.mem_map.mp hr
    rw [← hrr]
    exact hcov rc hrc
  have hget_ok : ∀ r ∈ comps.map (fun rc => rc.ref), okPos W H w h (dictGetD cur r) := by
    intro r hr
    obtain ⟨p, hp⟩ := Option.isSome_iff_exists.mp (hcov' r hr)
    rw [dictGetD, hp]
    exact hok (r, p) (dictGet_mem cur r p hp)
  have hset_ok : ∀ (base : Placement) (k : String) (v : Pos),
      (∀ kv ∈ base, okPos W H w h kv.2) → okPos W H w h v →
      ∀ kv ∈ dictSet base k v, okPos W H w h kv.2 := by
    intro base k v hbase hv kv hkv
    rcases mem_dictSet base k v kv hkv with hkv' | hkv'
    · rw [hkv']
      exact hv
    · exact hbase kv hkv'
  have hset_cov : ∀ (base : Placement) (k : String) (v : Pos),
      (∀ rc ∈ comps, (dictGet base rc.ref).isSome) →
      ∀ rc ∈ comps, (dictGet (dictSet base k v) rc.ref).isSome := by
    intro base k v hbase rc hrc
    rw [dictGet_dictSet]
    by_cases hk : k = rc.ref
    · rw [if_pos hk]
      rfl
    · rw [if_neg hk]
      exact hbase rc hrc
  simp only [proposeMove] at hcand
  split at hcand
  · -- translate
    rw [Option.some.injEq] at hcand
    subst hcand
    have hmem := listAt_mem (comps.map (fun rc => rc.ref)) d.transIdx hrefs_ne
    have hfd := findCid_dims db comps _ W H hdims hmem
    rw [hfd]
    constructor
    · apply hset_ok _ _ _ hok
      constructor
      · exact le_round2 _ _ hgx1 (clamp_bounds _ _ _ hfx).1
      · refine ⟨round2_le _ _ hgx2 (clamp_bounds _ _ _ hfx).2, ?_, ?_⟩
        · exact le_round2 _ _ hgy1 (clamp_bounds _ _ _ hfy).1
        · exact round2_le _ _ hgy2 (clamp_bounds _ _ _ hfy).2
    · apply hset_cov _ _ _ hcov
  · split at hcand
    · -- rotate
      rw [Option.some.injEq] at hcand
      subst hcand
      have hmem := listAt_mem (comps.map (fun rc => rc.ref)) d.rotIdx hrefs_ne
      have hold := hget_ok _ hmem
      constructor
      · apply hset_ok _ _ _ hok
        exact ⟨hold.1, hold.2.1, hold.2.2.1, hold.2.2.2⟩
      · apply hset_cov _ _ _ hcov
    · split at hcand
      · -- continue: produces no candidate
        exact absurd hcand (by simp)
      · -- swap
        next hlt =>
          rw [Option.some.injEq] at hcand
          subst hcand
          rw [List.length_map] at hlt
          have hlen : (comps.map (fun rc => rc.ref)).length = comps.length :=
            List.length_map _ _
          have hi : d.swapIdx1 % (comps.map (fun rc => rc.ref)).length <
              (comps.map (fun rc => rc.ref)).length := by
            rw [hlen]
            exact Nat.mod_lt _ (by omega)
          have hj : (if d.swapIdx1 % (comps.map (fun rc => rc.ref)).length ≤
                d.swapIdx2 % ((comps.map (fun rc => rc.ref)).length - 1)
              then d.swapIdx2 % ((comps.map (fun rc => rc.ref)).length - 1) + 1
              else d.swapIdx2 % ((comps.map (fun rc => rc.ref)).length - 1)) <
              (comps.map (fun rc => rc.ref)).length := by
            have hj0 : d.swapIdx2 % ((comps.map (fun rc => rc.ref)).length - 1) <
                (comps.map (fun rc => rc.ref)).length - 1 := by
              rw [hlen]
              exact Nat.mod_lt _ (by omega)
            split <;> omega
          have hm1 := getD_mem_of_lt _ _ hi
          have hm2 := getD_mem_of_lt _ _ hj
          have hv1 := hget_ok _ hm1
          have hv2 := hget_ok _ hm2
          constructor
          · apply hset_ok _ _ _ (hset_ok _ _ _ hok hv2)
            exact hv1
          · apply hset_cov _ _ _ (hset_cov _ _ _ hcov)

/-- One annealing iteration preserves the containment invariant. -/
lemma saStep_inv (db : Db) (comps : List RefedComp) (w h : ℚ)
    (mcuRef : Option String) (dd : Decision) (st : SAState) (W H : ℚ)
    (hc2 : 2 ≤ comps.length)
    (hdims : ∀ rc ∈ comps, resolvedDims db rc.component_id = (W, H))
    (hgx1 : (100 * (3 + W / 2)).den = 1) (hgx2 : (100 * (w - 3 - W / 2)).den = 1)
    (hgy1 : (100 * (3 + H / 2)).den = 1) (hgy2 : (100 * (h - 3 - H / 2)).den = 1)
    (hfx : 3 + W / 2 ≤ w - 3 - W / 2) (hfy : 3 + H / 2 ≤ h - 3 - H / 2)
    (hok : ∀ kv ∈ st.current, okPos W H w h kv.2)
    (hcov : ∀ rc ∈ comps, (dictGet st.current rc.ref).isSome)
    (hbest : ∀ kv ∈ st.best, okPos W H w h kv.2) :
    (∀ kv ∈ (saStep db comps w h mcuRef dd st).current, okPos W H w h kv.2) ∧
      (∀ rc ∈ comps, (dictGet (saStep db comps w h mcuRef dd st).current rc.ref).isSome) ∧
      ∀ kv ∈ (saStep db comps w h mcuRef dd st).best, okPos W H w h kv.2 := by
  unfold saStep
  rcases hp : proposeMove db comps w h dd st.current st.T with _ | cand
  · exact ⟨hok, hcov, hbest⟩
  · obtain ⟨hcok, hccov⟩ := propose_preserves db comps w h dd st.current st.T cand W H
      hc2 hdims hgx1 hgx2 hgy1 hgy2 hfx hfy hok hcov hp
    dsimp only
    split
    · split
      · exact ⟨hcok, hccov, hcok⟩
      · exact ⟨hcok, hccov, hbest⟩
    · exact ⟨hok, hcov, hbest⟩

/-- The whole loop preserves the containment invariant. -/
lemma saLoop_inv (db : Db) (comps : List RefedComp) (w h : ℚ)
    (mcuRef : Option String) (tc : ℚ) (env : SAEnv) (W H : ℚ)
    (hc2 : 2 ≤ comps.length)
    (hdims : ∀ rc ∈ comps, resolvedDims db rc.component_id = (W, H))
    (hgx1 : (100 * (3 + W / 2)).den = 1) (hgx2 : (100 * (w - 3 - W / 2)).den = 1)
    (hgy1 : (100 * (3 + H / 2)).den = 1) (hgy2 : (100 * (h - 3 - H / 2)).den = 1)
    (hfx : 3 + W / 2 ≤ w - 3 - W / 2) (hfy : 3 + H / 2 ≤ h - 3 - H / 2) :
    ∀ (fuel : ℕ) (st : SAState),
      (∀ kv ∈ st.current, okPos W H w h kv.2) →
      (∀ rc ∈ comps, (dictGet st.current rc.ref).isSome) →
      (∀ kv ∈ st.best, okPos W H w h kv.2) →
      ∀ kv ∈ (saLoop db comps w h mcuRef tc env fuel st).best, okPos W H w h kv.2 := by
  intro fuel
  induction fuel with
  | zero => intro st _ _ hbest; exact hbest
  | succ n ih =>
    intro st hok hcov hbest
    unfold saLoop
    split
    · split
      · exact hbest
      · obtain ⟨h1, h2, h3⟩ := saStep_inv db comps w h mcuRef (env.dec st.itr)
          { st with itr := st.itr + 1 } W H hc2 hdims hgx1 hgx2 hgy1 hgy2 hfx hfy
          hok hcov hbest
        exact ih _ h1 h2 h3
    · exact hbest

/-- C2 (amended): when every component resolves to the same dimensions
`W × H` (so that one margin-reduced rectangle bounds them all), the bounds
are representable at two decimals, the board fits the footprint, and the
seed placement is contained and covers every ref, then every instance of the
optimizer's final placement satisfies the claim's containment inequalities.
(Containment as originally claimed — for heterogeneous dimensions, after
every mutation — fails, because the swap move exchanges positions without
re-clamping; see the counterexample.) -/
theorem sa_containment_equal_dims (db : Db) (comps : List RefedComp)
    (w h : ℚ) (mcuRef : Option String) (tc : ℚ) (env : SAEnv)
    (seed : Placement) (W H : ℚ)
    (hdims : ∀ rc ∈ comps, resolvedDims db rc.component_id = (W, H))
    (hgx1 : (100 * (3 + W / 2)).den = 1) (hgx2 : (100 * (w - 3 - W / 2)).den = 1)
    (hgy1 : (100 * (3 + H / 2)).den = 1) (hgy2 : (100 * (h - 3 - H / 2)).den = 1)
    (hfx : 3 + W / 2 ≤ w - 3 - W / 2) (hfy : 3 + H / 2 ≤ h - 3 - H / 2)
    (hseedok : ∀ kv ∈ seed, okPos W H w h kv.2)
    (hseedcov : ∀ rc ∈ comps, (dictGet seed rc.ref).isSome) :
    containedInBoard db comps
      (simulatedAnnealing db comps w h mcuRef tc env seed).best w h := by
  intro rc hrc p hp
  have hWH := hdims rc hrc
  rw [hWH]
  unfold simulatedAnnealing at hp
  by_cases hlen : comps.length ≤ 1
  · rw [if_pos hlen] at hp
    exact hseedok (rc.ref, p) (dictGet_mem seed rc.ref p hp)
  · rw [if_neg hlen] at hp
    have hall := saLoop_inv db comps w h mcuRef tc env W H (by omega) hdims
      hgx1 hgx2 hgy1 hgy2 hfx hfy 8000
      ⟨seed, score db comps seed w h mcuRef, seed, score db comps seed w h mcuRef, 80, 0⟩
      hseedok hseedcov hseedok
    exact hall (rc.ref, p) (dictGet_mem _ rc.ref p hp)

/-- Witness for the amended C2: two 10 × 10 components on a 100 × 80 board
with an in-bounds seed; all hypotheses are discharged concretely. -/
theorem sa_containment_equal_dims_witness :
    (∀ rc ∈ ([⟨"e", "U1"⟩, ⟨"e", "U2"⟩] : List RefedComp),
        resolvedDims [("e", { dimensions_mm := some (10, 10) })] rc.component_id =
          ((10 : ℚ), (10 : ℚ))) ∧
      containedInBoard [("e", { dimensions_mm := some (10, 10) })]
        [⟨"e", "U1"⟩, ⟨"e", "U2"⟩]
        (simulatedAnnealing [("e", { dimensions_mm := some (10, 10) })]
          [⟨"e", "U1"⟩, ⟨"e", "U2"⟩] 100 80 none 10
          ⟨fun _ => ⟨0, 0, 0, 0, 0, 0, 0, 0⟩, fun _ => 0⟩
          [("U1", ⟨20, 20, 0⟩), ("U2", ⟨60, 40, 0⟩)]).best 100 80 :=
  ⟨by decide,
    sa_containment_equal_dims [("e", { dimensions_mm := some (10, 10) })]
      [⟨"e", "U1"⟩, ⟨"e", "U2"⟩] 100 80 none 10
      ⟨fun _ => ⟨0, 0, 0, 0, 0, 0, 0, 0⟩, fun _ => 0⟩
      [("U1", ⟨20, 20, 0⟩), ("U2", ⟨60, 40, 0⟩)] 10 10
      (by decide) (by decide) (by decide) (by decide) (by decide)
      (by decide) (by decide) (by decide) (by decide)⟩

/-! ### C2 counterexample machinery -/

lemma sqrt_le_of_sq (a b : ℝ) (hb : 0 ≤ b) (h : a ≤ b ^ 2) : Real.sqrt a ≤ b := by
  calc Real.sqrt a ≤ Real.sqrt (b ^ 2) := Real.sqrt_le_sqrt h
    _ = b := Real.sqrt_sq hb

lemma hypot_nonneg (a b : ℚ) : 0 ≤ hypot a b := Real.sqrt_nonneg _

lemma wireWeight_nonneg (cat : String) : 0 ≤ wireWeight cat := by
  unfold wireWeight
  split_ifs <;> norm_num

lemma wireSum_nonneg (db : Db) (pl : Placement) (r : String) (m : ℚ × ℚ) :
    ∀ comps : List RefedComp, 0 ≤ wireSum db pl r m comps := by
  intro comps
  induction comps with
  | nil => simp [wireSum]
  | cons rc rest ih =>
    rw [wireSum]
    have h1 : (0:ℝ) ≤ if rc.ref = r then 0 else
        hypot ((getPos pl rc.ref).1 - m.1) ((getPos pl rc.ref).2 - m.2) *
          ((wireWeight (((getComp db rc.component_id).category).getD "passive") : ℚ) : ℝ) := by
      split
      · exact le_rfl
      · exact mul_nonneg (hypot_nonneg _ _) (by exact_mod_cast wireWeight_nonneg _)
    linarith

lemma wireLengthScore_nonneg (db : Db) (comps : List RefedComp) (pl : Placement)
    (m : Option String) : 0 ≤ wireLengthScore db comps pl m := by
  unfold wireLengthScore
  cases m with
  | none => exact le_rfl
  | some r =>
    dsimp only
    split
    · exact le_rfl
    · split
      · exact le_rfl
      · exact wireSum_nonneg db pl r (getPos pl r) comps

lemma zonePenalty_nonneg (db : Db) (r cid : String) (pl : Placement) (w h : ℚ) :
    0 ≤ zonePenalty db r cid pl w h := by
  unfold zonePenalty
  dsimp only
  split
  · exact le_rfl
  · refine mul_nonneg (hypot_nonneg _ _) ?_
    have hq : (0:ℚ) ≤ max (1/10) ((10 - resolvePriority db cid) * (3/10)) :=
      le_trans (by norm_num) (le_max_left _ _)
    exact_mod_cast hq

lemma list_sum_nonneg_r {l : List ℝ} (h : ∀ x ∈ l, 0 ≤ x) : 0 ≤ l.sum := by
  induction l with
  | nil => simp
  | cons a t ih =>
    rw [List.sum_cons]
    have := h a (List.mem_cons_self a t)
    have := ih (fun x hx => h x (List.mem_cons_of_mem a hx))
    linarith

lemma score_ge_overlapTerm (db : Db) (comps : List RefedComp) (pl : Placement)
    (w h : ℚ) (m : Option String) :
    ((overlapTerm db pl comps : ℚ) : ℝ) ≤ score db comps pl w h m := by
  unfold score
  have h1 := wireLengthScore_nonneg db comps pl m
  have h2 : 0 ≤ (comps.map fun rc => zonePenalty db rc.ref rc.component_id pl w h).sum := by
    apply list_sum_nonneg_r
    intro x hx
    obtain ⟨rc, _, rfl⟩ := List.mem_map.mp hx
    exact zonePenalty_nonneg db rc.ref rc.component_id pl w h
  linarith

lemma metropolis_reject (u delta T : ℝ) (hu : 9/10 ≤ u) (hdelta : 3000 ≤ delta)
    (hT : 0 < T) (hT80 : T ≤ 80) : ¬ (u < Real.exp (-delta / T)) := by
  rw [not_lt]
  have hx : (1:ℝ) ≤ delta / T := by
    rw [le_div_iff hT]
    nlinarith
  have h1 : delta / T + 1 ≤ Real.exp (delta / T) := Real.add_one_le_exp _
  have h2 : Real.exp (-(delta / T)) = (Real.exp (delta / T))⁻¹ := Real.exp_neg _
  rw [neg_div, h2]
  have hpos : (0:ℝ) < delta / T + 1 := by linarith
  have h4 : (Real.exp (delta / T))⁻¹ ≤ (delta / T + 1)⁻¹ := inv_le_inv_of_le hpos h1
  have h5 : (delta / T + 1)⁻¹ ≤ (2:ℝ)⁻¹ := inv_le_inv_of_le (by norm_num) (by linarith)
  calc (Real.exp (delta / T))⁻¹ ≤ (delta / T + 1)⁻¹ := h4
    _ ≤ (2:ℝ)⁻¹ := h5
    _ ≤ 9/10 := by norm_num
    _ ≤ u := hu

lemma propose_fwd : proposeMove dbX compsX 100 80 decX seedX 80 = some swapX := by decide

lemma propose_back (T : ℚ) : proposeMove dbX compsX 100 80 decX swapX T = some seedX := by
  simp only [proposeMove]
  rw [if_neg (by decide), if_neg (by decide), if_neg (by decide)]
  decide

lemma s0X_ge : (11025/2 : ℝ) ≤ score dbX compsX seedX 100 80 (some "U1") := by
  have h := score_ge_overlapTerm dbX compsX seedX 100 80 (some "U1")
  rw [show overlapTerm dbX seedX compsX = 11025/2 from by decide] at h
  calc (11025/2 : ℝ) = (((11025/2 : ℚ)) : ℝ) := by norm_num
    _ ≤ _ := h

lemma s1X_le : score dbX compsX swapX 100 80 (some "U1") ≤ 1821 := by
  have hov : overlapTerm dbX swapX compsX = 1725 := by decide
  have e1 : getPos swapX "U1" = (32, 34) := by decide
  have e2 : getPos swapX "U2" = (41, 7) := by decide
  have e3 : getPos swapX "?1" = (32, 34) := by decide
  have c1 : ((getComp dbX "c1").category).getD "passive" = "comms" := by decide
  have c2 : ((getComp dbX "b1").category).getD "passive" = "passive" := by decide
  have z1 : resolveZone dbX "m1" = "centre" := by decide
  have z2 : resolveZone dbX "c1" = "any" := by decide
  have z3 : resolveZone dbX "b1" = "edge_top" := by decide
  have p1 : resolvePriority dbX "m1" = 1 := by decide
  have p3 : resolvePriority dbX "b1" = 9 := by decide
  have d1 : dictGet swapX "U1" = some ⟨32, 34, 0⟩ := by decide
  simp only [score]
  rw [hov]
  simp [wireLengthScore, wireSum, zonePenalty, compsX, e1, e2, e3, c1, c2, z1, z2, z3, p1, p3,
    d1, zoneCentre, wireWeight, hypot]
  norm_num [max_def]
  have b1 : Real.sqrt 810 ≤ 29 := sqrt_le_of_sq _ _ (by norm_num) (by norm_num)
  have b2 : Real.sqrt 360 ≤ 19 := sqrt_le_of_sq _ _ (by norm_num) (by norm_num)
  have b3 : Real.sqrt 22024 ≤ 149 := sqrt_le_of_sq _ _ (by norm_num) (by norm_num)
  have b4 : Real.sqrt 25 = 5 := by
    rw [show (25:ℝ) = 5 ^ 2 from by norm_num, Real.sqrt_sq (by norm_num : (0:ℝ) ≤ 5)]
  have b6 : Real.sqrt 22024 / Real.sqrt 25 ≤ 149 / 5 := by
    rw [b4]
    exact (div_le_div_right (by norm_num : (0:ℝ) < 5)).mpr b3
  linarith

lemma stepRejX (st : SAState) (hcur : st.current = swapX)
    (hcurS : st.curS = score dbX compsX swapX 100 80 (some "U1"))
    (hT : 0 < st.T) (hT80 : st.T ≤ 80) :
    saStep dbX compsX 100 80 (some "U1") decX st = { st with T := st.T * (997/1000) } := by
  unfold saStep
  rw [hcur, propose_back st.T]
  dsimp only
  split
  · next hacc =>
    exfalso
    rcases hacc with hlt | hexp
    · rw [hcurS] at hlt
      have := s0X_ge
      have := s1X_le
      linarith
    · rw [hcurS] at hexp
      refine metropolis_reject _ _ _ ?_ ?_ ?_ ?_ hexp
      · show (9/10 : ℝ) ≤ ((decX.acceptU : ℚ) : ℝ)
        norm_num [decX]
      · have := s0X_ge
        have := s1X_le
        linarith
      · exact_mod_cast hT
      · exact_mod_cast hT80
  · rfl

lemma step0X (itr : ℕ) :
    saStep dbX compsX 100 80 (some "U1") decX
      ⟨seedX, score dbX compsX seedX 100 80 (some "U1"), seedX,
        score dbX compsX seedX 100 80 (some "U1"), 80, itr⟩ =
      ⟨swapX, score dbX compsX swapX 100 80 (some "U1"), swapX,
        score dbX compsX swapX 100 80 (some "U1"), 80 * (997/1000), itr⟩ := by
  unfold saStep
  dsimp only
  rw [propose_fwd]
  dsimp only
  have hneg : score dbX compsX swapX 100 80 (some "U1") -
      score dbX compsX seedX 100 80 (some "U1") < 0 := by
    have := s0X_ge
    have := s1X_le
    linarith
  rw [if_pos (Or.inl hneg)]
  have hlt : score dbX compsX swapX 100 80 (some "U1") <
      score dbX compsX seedX 100 80 (some "U1") := by
    have := s0X_ge
    have := s1X_le
    linarith
  rw [if_pos hlt]

lemma loopX : ∀ (fuel : ℕ) (st : SAState),
    st.current = swapX → st.curS = score dbX compsX swapX 100 80 (some "U1") →
    st.best = swapX → 0 < st.T → st.T ≤ 80 →
    (saLoop dbX compsX 100 80 (some "U1") 10 envX fuel st).best = swapX := by
  intro fuel
  induction fuel with
  | zero => intro st _ _ hb _ _; exact hb
  | succ n ih =>
    intro st hcur hcurS hb hT hT80
    unfold saLoop
    split
    · split
      · exact hb
      · rw [show envX.dec st.itr = decX from rfl]
        rw [stepRejX { st with itr := st.itr + 1 } hcur hcurS hT hT80]
        refine ih _ hcur hcurS hb ?_ ?_
        · show 0 < st.T * (997/1000)
          positivity
        · show st.T * (997/1000) ≤ 80
          nlinarith
    · exact hb

lemma sa_bestX :
    (simulatedAnnealing dbX compsX 100 80 (some "U1") 10 envX seedX).best = swapX := by
  unfold simulatedAnnealing
  rw [if_neg (by decide)]
  dsimp only
  rw [show (8000 : ℕ) = 7999 + 1 from rfl]
  rw [saLoop]
  rw [if_pos (by norm_num : ((1:ℚ)/2 < 80 ∧ (0:ℕ) < 8000))]
  rw [if_neg (fun hc => absurd hc.2 (by norm_num [envX]))]
  rw [show envX.dec 0 = decX from rfl]
  rw [step0X (0 + 1)]
  exact loopX 7999 _ rfl rfl rfl (by norm_num) (by norm_num)

/-- C2 counterexample: starting from the seed that `initial_placement`
itself produces (all jitter draws within the legal ±1 range), one accepted
swap move exchanges the 10 × 10 comms component `U2` with the 1 × 0.5
passive `?1`, leaving `U2` centred at (41, 7) — below the margin-reduced
lower bound `3 + 10/2 = 8` — and every later proposal is rejected, so the
optimizer returns a final state that violates the claimed containment. -/
theorem sa_containment_counterexample :
    initialPlacement dbX compsX 100 80 jitX = seedX ∧
      ¬ containedInBoard dbX compsX
        (simulatedAnnealing dbX compsX 100 80 (some "U1") 10 envX
          (initialPlacement dbX compsX 100 80 jitX)).best 100 80 := by
  have hseed : initialPlacement dbX compsX 100 80 jitX = seedX := by decide
  refine ⟨hseed, ?_⟩
  rw [hseed, sa_bestX]
  intro hcont
  have h := hcont ⟨"c1", "U2"⟩ (by decide) ⟨41, 7, 0⟩ (by decide)
  rw [show resolvedDims dbX "c1" = (10, 10) from by decide] at h
  have h3 := h.2.2.1
  norm_num at h3

end Eisla
